import Mathlib

/-!
Verification of the serial command interpreter implemented in
`components/commands/commands.c` (ESP-P1).

Modelling conventions (shallow embedding):
* C character buffers are modelled as `List Char`; a buffer of capacity
  `MSG_BUFFER_LENGTH` is a list of that length.  The content of a C string
  stored in a buffer is the sequence of characters before the first NUL
  (`cstr` below).  Input lines are the characters before the terminator, so
  they contain no NUL character by construction.
* `MSG_BUFFER_LENGTH` is declared in a header that only the build system
  sees; its numeric value is not fixed anywhere in the core, so every
  definition takes it as an explicit parameter `N`.
* Pointer writes `buf[i] = c` become `List.set`; `strcpy`, `strncpy` and the
  `snprintf` calls are modelled by the corresponding bounded write
  primitives below.
* `strtoul` (newlib, 32-bit `unsigned long`) is modelled exactly: leading
  `isspace` characters are skipped, an optional single sign is accepted
  (`-` negates in the return type), for base 16 an optional `0x`/`0X` is
  accepted, the maximal run of digits of the base is converted, values
  above `ULONG_MAX` are clamped to `ULONG_MAX`, and the returned offset is
  the number of characters consumed (`end - nptr`, `0` when no conversion
  was performed).
* The external collaborators (`esp_read_mac`, `esp_timer_get_time`,
  `esp_chip_info`, `esp_get_free_heap_size`) are out of scope for the spec;
  their results enter the model as the fields of `Env`.
-/

namespace ESPP1

/-- C `tolower` on the ASCII byte value: the letters `A`..`Z` (codes 65..90)
map to `a`..`z`, every other character is unchanged
(used at commands.c:145-146). -/
def tolower (c : Char) : Char :=
  if 65 ≤ c.toNat ∧ c.toNat ≤ 90 then Char.ofNat (c.toNat + 32) else c

/-- The two characters the tokenizer's `switch` treats as whitespace:
`' '` and `'\t'` (commands.c:128-129). -/
def isSplitChar (c : Char) : Bool := c = ' ' || c = '\t'

/-- Command token enumeration (commands.c:19-25). -/
inductive CommandToken where
  | COMMAND_UNKNOWN
  | COMMAND_MAC
  | COMMAND_ID
  | COMMAND_STATUS
  | COMMAND_DEC
deriving DecidableEq

/-- The `Command` structure (commands.c:27-31); the two fixed-capacity
buffers are represented by their string contents. -/
structure Command where
  key : CommandToken
  command : List Char
  argument : List Char
deriving DecidableEq

/-- `init_Command` (commands.c:33-42): key `COMMAND_UNKNOWN`, both buffers
zeroed, i.e. empty string contents. -/
def init_Command : Command :=
  ⟨CommandToken.COMMAND_UNKNOWN, [], []⟩

/-- The scanning loop of `parse_input` (commands.c:122-148).  Characters
before the first `' '`/`'\t'` are lower-cased into `command`; the first
whitespace character switches the target to `argument` and is dropped;
every later character -- whitespace included, via the intentional
fallthrough -- is copied verbatim. -/
def scanLine : List Char → List Char × List Char
  | [] => ([], [])
  | c :: rest =>
    if isSplitChar c then ([], rest)
    else (tolower c :: (scanLine rest).1, (scanLine rest).2)

/-- The `strcmp` chain of `parse_input` (commands.c:150-158) mapping the
lower-cased command word to its token. -/
def keyOf (name : List Char) : CommandToken :=
  if name = "mac".toList then CommandToken.COMMAND_MAC
  else if name = "id".toList then CommandToken.COMMAND_ID
  else if name = "status".toList then CommandToken.COMMAND_STATUS
  else if name = "dec".toList then CommandToken.COMMAND_DEC
  else CommandToken.COMMAND_UNKNOWN

/-- `parse_input` (commands.c:106-161) for non-null pointers: inputs of
length `≥ MSG_BUFFER_LENGTH` return `-2` leaving `out_cmd` as it was;
otherwise the command is rebuilt from the scan of the line and the status
is `0`.  (The `-1` branch guards null pointers, which do not arise in the
model.) -/
def parse_input (N : Nat) (in_msg : List Char) (out_cmd : Command) : Int × Command :=
  if N ≤ in_msg.length then (-2, out_cmd)
  else
    (0, ⟨keyOf (scanLine in_msg).1, (scanLine in_msg).1, (scanLine in_msg).2⟩)

/-- Sequential byte writes `buf[pos] = s₀; buf[pos+1] = s₁; ...`; a write
past the end of the list is a no-op (in C it would be an out-of-bounds
write, which no in-contract execution performs). -/
def writeAt : List Char → Nat → List Char → List Char
  | buf, _, [] => buf
  | buf, pos, c :: rest => writeAt (buf.set pos c) (pos + 1) rest

/-- C `strcpy(buf + pos, s)`: the characters of `s` followed by a NUL
terminator. -/
def strcpy (buf : List Char) (pos : Nat) (s : List Char) : List Char :=
  writeAt buf pos (s ++ ['\x00'])

/-- Content of a C string stored in a buffer: the characters before the
first NUL. -/
def cstr : List Char → List Char
  | [] => []
  | c :: rest => if c = '\x00' then [] else c :: cstr rest

/-- C `strncpy(dst, src, n)`: copies the string content of `src` (at most
`n` characters) and pads with NUL bytes up to exactly `n` bytes written. -/
def strncpy (dst src : List Char) (n : Nat) : List Char :=
  writeAt dst 0 ((cstr src).take n ++ List.replicate (n - ((cstr src).take n).length) '\x00')

/-- C `snprintf(buf, N, ...)` of a fully formatted text `s`: at most `N-1`
characters are stored, always NUL-terminated. -/
def snprintfWrite (N : Nat) (buf : List Char) (s : List Char) : List Char :=
  strcpy buf 0 (s.take (N - 1))

/-- The `hexmap` table of `mac_to_string` (commands.c:178). -/
def hexmap : List Char := "0123456789ABCDEF".toList

/-- One loop iteration's two digit writes in `mac_to_string`
(commands.c:183-186): high nibble `(mac[i] & 0xF0) >> 4` first, then low
nibble `mac[i] & 0x0F`; `% 256` models the `uint8_t` storage. -/
def byteToHexPair (b : Nat) : List Char :=
  [hexmap.getD (b % 256 / 16) ' ', hexmap.getD (b % 16) ' ']

/-- The exact character sequence emitted by the `mac_to_string` loop
(commands.c:181-190): six hex pairs, `':'` after each of the first five
(`i < 5`), 17 characters in all, no terminator. -/
def macChars (mac : List Nat) : List Char :=
  byteToHexPair (mac.getD 0 0) ++ ':' ::
  (byteToHexPair (mac.getD 1 0) ++ ':' ::
  (byteToHexPair (mac.getD 2 0) ++ ':' ::
  (byteToHexPair (mac.getD 3 0) ++ ':' ::
  (byteToHexPair (mac.getD 4 0) ++ ':' ::
  byteToHexPair (mac.getD 5 0)))))

/-- `mac_to_string(mac, out)` (commands.c:172-191): writes the 17
characters sequentially starting at `pos` (the `out` pointer), nothing
else -- in particular no NUL terminator. -/
def mac_to_string (mac : List Nat) (out : List Char) (pos : Nat) : List Char :=
  writeAt out pos (macChars mac)

/-- `process_cmd_mac` (commands.c:163-170): `strcpy` of the `"MAC "` text
followed by `mac_to_string` at offset `strlen("MAC ") = 4`; always
returns 0. -/
def process_cmd_mac (mac : List Nat) (out_msg : List Char) : Int × List Char :=
  (0, mac_to_string mac (strcpy out_msg 0 "MAC ".toList) 4)

/-- `process_cmd_id` (commands.c:193-196). -/
def process_cmd_id (out_msg : List Char) : Int × List Char :=
  (0, strcpy out_msg 0 "ID: otf2@hi.is".toList)

/-- Decimal digit character, code `48 + d` for `d < 10`. -/
def digitChar (d : Nat) : Char := Char.ofNat (48 + d)

/-- Fuel-driven decimal rendering of an unsigned value, most significant
digit first (the effect of `%u` / `%PRIu32` in the handlers); the fuel
`n + 1` always suffices since `n / 10 < n`. -/
def utoaCore : Nat → Nat → List Char → List Char
  | 0, _, acc => acc
  | fuel + 1, n, acc =>
    if n < 10 then digitChar n :: acc
    else utoaCore fuel (n / 10) (digitChar (n % 10) :: acc)

/-- Decimal string of an unsigned value, no sign, no base marker, no
leading zeros. -/
def utoa (n : Nat) : List Char := utoaCore (n + 1) n []

/-- C `isspace` in the default locale: space, `\t`, `\n`, `\v`, `\f`,
`\r`. -/
def isspaceC (c : Char) : Bool :=
  c = ' ' || c = '\t' || c = '\n' || c = '\x0b' || c = '\x0c' || c = '\x0d'

/-- Numeric value `strtoul` assigns to a character: `0`..`9` then the
letters (either case) as 10..35; `none` for non-alphanumerics. -/
def digitVal (c : Char) : Option Nat :=
  if 48 ≤ c.toNat ∧ c.toNat ≤ 57 then some (c.toNat - 48)
  else if 97 ≤ c.toNat ∧ c.toNat ≤ 122 then some (c.toNat - 97 + 10)
  else if 65 ≤ c.toNat ∧ c.toNat ≤ 90 then some (c.toNat - 65 + 10)
  else none

/-- Leading-whitespace skip of `strtoul`: count skipped and remainder. -/
def skipWs : List Char → Nat × List Char
  | [] => (0, [])
  | c :: rest =>
    if isspaceC c then ((skipWs rest).1 + 1, (skipWs rest).2)
    else (0, c :: rest)

/-- Digit-accumulation loop of `strtoul`: exact value accumulated over the
maximal run of digits valid in `base`, together with the number of digit
characters consumed. -/
def digitsLoop (base : Nat) : List Char → Nat → Nat × Nat
  | [], acc => (acc, 0)
  | c :: rest, acc =>
    match digitVal c with
    | some v =>
      if v < base then
        ((digitsLoop base rest (acc * base + v)).1,
         (digitsLoop base rest (acc * base + v)).2 + 1)
      else (acc, 0)
    | none => (acc, 0)

/-- `ULONG_MAX` for the 32-bit `unsigned long` of the target. -/
def ULONG_MAX : Nat := 4294967295

/-- newlib `strtoul(s, &end, base)` for the bases 2, 8, 10, 16 used here:
returns the converted value and the number of characters consumed
(`end - s`; `0` exactly when no conversion was performed).  An out-of-range
magnitude yields `ULONG_MAX`; a `-` sign negates in the 32-bit return type;
for base 16 a `0x`/`0X` immediately followed by a hex digit is consumed,
while a bare `0x` converts just the `0` (end points at the `x`). -/
def strtoul (s : List Char) (base : Nat) : Nat × Nat :=
  let w := skipWs s
  let sg : Bool × Nat × List Char :=
    match w.2 with
    | c :: r =>
      if c = '+' then (false, 1, r)
      else if c = '-' then (true, 1, r)
      else (false, 0, c :: r)
    | [] => (false, 0, [])
  let hp : Nat × List Char :=
    if base = 16 then
      match sg.2.2 with
      | c0 :: c1 :: r =>
        if c0 = '0' ∧ (c1 = 'x' ∨ c1 = 'X') ∧ (digitsLoop 16 r 0).2 ≠ 0 then (2, r)
        else (0, c0 :: c1 :: r)
      | r => (0, r)
    else (0, sg.2.2)
  let d := digitsLoop base hp.2 0
  if d.2 = 0 then (0, 0)
  else
    let v :=
      if ULONG_MAX < d.1 then ULONG_MAX
      else if sg.1 then (4294967296 - d.1 % 4294967296) % 4294967296
      else d.1
    (v, w.1 + sg.2.1 + hp.1 + d.2)

/-- Base selection of `process_cmd_dec` (commands.c:213-231): a leading
`'0'` on an argument of length `> 1` selects base 2 for `b`, base 16 for
`x` and base 8 otherwise; anything else leaves base 10. -/
def detectBase (num : List Char) : Nat :=
  if num.headD '\x00' = '0' ∧ 1 < num.length then
    match num.getD 1 '\x00' with
    | 'b' => 2
    | 'x' => 16
    | _ => 8
  else 10

/-- Number of characters skipped before the substring handed to `strtoul`
(commands.c:235-243): 0 for base 10, 1 for base 8, 2 for bases 2 and 16. -/
def decSkip (base : Nat) : Nat :=
  if base = 10 then 0 else if base = 8 then 1 else 2

/-- `process_cmd_dec` (commands.c:212-253).  `end == num` is expressible as
`decSkip base + consumed = 0` (the `end` pointer is `num + skip + consumed`)
and `*end != '\0'` as `consumed < sub.length`; always returns 0. -/
def process_cmd_dec (N : Nat) (in_arg : List Char) (out_msg : List Char) : Int × List Char :=
  let base := detectBase in_arg
  let sub := in_arg.drop (decSkip base)
  let r := strtoul sub base
  if decSkip base + r.2 = 0 ∨ r.2 < sub.length then
    (0, strcpy out_msg 0 "ARGUMENT ERROR".toList)
  else if 65535 < r.1 then
    (0, strcpy out_msg 0 "ARGUMENT ERROR".toList)
  else
    (0, snprintfWrite N out_msg (utoa r.1))

/-- Outcome of the dec handler's checks, separated from the buffer writes:
`none` for the two `ARGUMENT ERROR` branches, `some v` for success with
value `v`. -/
def decCore (in_arg : List Char) : Option Nat :=
  let base := detectBase in_arg
  let sub := in_arg.drop (decSkip base)
  let r := strtoul sub base
  if decSkip base + r.2 = 0 ∨ r.2 < sub.length then none
  else if 65535 < r.1 then none
  else some r.1

/-- Response text the dec handler leaves in a zero-filled dispatch buffer
of capacity `N`. -/
def dec_response (N : Nat) (in_arg : List Char) : List Char :=
  cstr (process_cmd_dec N in_arg (List.replicate N '\x00')).2

/-- `%lld` rendering for the uptime field. -/
def intChars (i : Int) : List Char :=
  if i < 0 then '-' :: utoa i.natAbs else utoa i.toNat

/-- Results of the external collaborators consumed by the handlers:
`esp_read_mac` bytes, `esp_timer_get_time()` microseconds,
`esp_chip_info` core count, `esp_get_free_heap_size()` bytes. -/
structure Env where
  mac : List Nat
  uptime_us : Int
  cores : Nat
  heap : Nat
deriving DecidableEq

/-- The text composed by `process_cmd_status`'s `snprintf`
(commands.c:198-210); `Int.tdiv` is C's truncating `int64_t` division. -/
def statusText (env : Env) : List Char :=
  "SYSTEM_UPTIME: ".toList ++ intChars (Int.tdiv env.uptime_us 1000000) ++
  " S \nAVAILABLE CORES: ".toList ++ utoa (env.cores % 256) ++
  " \nAVAILABLE HEAP MEMORY: ".toList ++ utoa (env.heap % 4294967296)

/-- `process_cmd_status` (commands.c:198-210); always returns 0. -/
def process_cmd_status (N : Nat) (env : Env) (out_msg : List Char) : Int × List Char :=
  (0, snprintfWrite N out_msg (statusText env))

/-- `process_command` (commands.c:58-104).  The two pointer arguments are
`Option`s (`none` = NULL); the result pairs the status with the caller's
output buffer after the call.  Note the faithful slip: the status of
`parse_input` is computed and discarded (commands.c:70), only the `.2`
component is used. -/
def process_command (N : Nat) (env : Env) (in_msg out_msg : Option (List Char)) :
    Int × Option (List Char) :=
  match in_msg, out_msg with
  | some line, some out =>
    let str0 : List Char := List.replicate N '\x00'
    let cmd := (parse_input N line init_Command).2
    let hr : Int × List Char :=
      match cmd.key with
      | CommandToken.COMMAND_MAC => process_cmd_mac env.mac str0
      | CommandToken.COMMAND_ID => process_cmd_id str0
      | CommandToken.COMMAND_STATUS => process_cmd_status N env str0
      | CommandToken.COMMAND_DEC => process_cmd_dec N cmd.argument str0
      | CommandToken.COMMAND_UNKNOWN => (1, str0)
    if hr.1 ≠ 0 then (hr.1, some out)
    else (0, some (strncpy out (hr.2.set (N - 1) '\x00') N))
  | _, _ => (-1, out_msg)

/-- The response a caller reads back: the string content of the output
buffer. -/
def respOf (r : Int × Option (List Char)) : Option (List Char) :=
  r.2.map cstr

/-! ### Buffer-write lemmas -/

theorem writeAt_length (s : List Char) : ∀ (buf : List Char) (pos : Nat),
    (writeAt buf pos s).length = buf.length := by
  induction s with
  | nil => intro buf pos; rfl
  | cons c s ih => intro buf pos; simp [writeAt, ih, List.length_set]

theorem set_shape (l : List Char) (n : Nat) (a : Char) (h : n < l.length) :
    l.set n a = l.take n ++ a :: l.drop (n + 1) := by
  rw [List.set_eq_take_append_cons_drop, if_pos h]

theorem writeAt_append (s : List Char) : ∀ (b₁ b₂ : List Char),
    s.length ≤ b₂.length →
    writeAt (b₁ ++ b₂) b₁.length s = b₁ ++ s ++ b₂.drop s.length := by
  induction s with
  | nil => intro b₁ b₂ _; simp [writeAt]
  | cons c s ih =>
    intro b₁ b₂ h
    obtain ⟨d, b₂', rfl⟩ : ∃ d b₂', b₂ = d :: b₂' := by
      cases b₂ with
      | nil => simp at h
      | cons d b₂' => exact ⟨d, b₂', rfl⟩
    have hset : (b₁ ++ d :: b₂').set b₁.length c = (b₁ ++ [c]) ++ b₂' := by
      rw [List.set_append_right _ _ (Nat.le_refl _)]
      simp
    have hlen : s.length ≤ b₂'.length := by simp at h; omega
    calc writeAt (b₁ ++ d :: b₂') b₁.length (c :: s)
        = writeAt ((b₁ ++ d :: b₂').set b₁.length c) (b₁.length + 1) s := rfl
      _ = writeAt ((b₁ ++ [c]) ++ b₂') (b₁ ++ [c]).length s := by
          rw [hset]; congr 1; simp
      _ = (b₁ ++ [c]) ++ s ++ b₂'.drop s.length := ih _ _ hlen
      _ = b₁ ++ (c :: s) ++ (d :: b₂').drop (c :: s).length := by
          simp [List.drop_succ_cons]

theorem writeAt_fits (s : List Char) (buf : List Char) (pos : Nat)
    (h : pos + s.length ≤ buf.length) :
    writeAt buf pos s = buf.take pos ++ s ++ buf.drop (pos + s.length) := by
  have htk : (buf.take pos).length = pos := by simp [List.length_take]; omega
  have hdl : s.length ≤ (buf.drop pos).length := by simp [List.length_drop]; omega
  calc writeAt buf pos s
      = writeAt (buf.take pos ++ buf.drop pos) (buf.take pos).length s := by
        rw [List.take_append_drop, htk]
    _ = buf.take pos ++ s ++ (buf.drop pos).drop s.length := writeAt_append s _ _ hdl
    _ = buf.take pos ++ s ++ buf.drop (pos + s.length) := by
        rw [List.drop_drop]

theorem writeAt_getD_of_ge (s : List Char) : ∀ (buf : List Char) (pos i : Nat) (d : Char),
    pos + s.length ≤ i → (writeAt buf pos s).getD i d = buf.getD i d := by
  induction s with
  | nil => intro buf pos i d _; rfl
  | cons c s ih =>
    intro buf pos i d h
    have h1 : (pos + 1) + s.length ≤ i := by simp at h; omega
    have h2 : (writeAt (buf.set pos c) (pos + 1) s).getD i d = (buf.set pos c).getD i d :=
      ih _ _ _ _ h1
    have h3 : (buf.set pos c).getD i d = buf.getD i d := by
      simp only [List.getD]
      rw [List.get?_set_ne]
      omega
    calc (writeAt buf pos (c :: s)).getD i d
        = (writeAt (buf.set pos c) (pos + 1) s).getD i d := rfl
      _ = buf.getD i d := by rw [h2, h3]

/-! ### C-string content lemmas -/

theorem cstr_append_nul (a : List Char) : ∀ b, cstr (a ++ '\x00' :: b) = cstr a := by
  induction a with
  | nil => intro b; simp [cstr]
  | cons c a ih =>
    intro b
    by_cases h : c = '\x00' <;> simp [cstr, h, ih]

theorem cstr_of_not_mem (a : List Char) (h : '\x00' ∉ a) : cstr a = a := by
  induction a with
  | nil => rfl
  | cons c a ih =>
    simp only [List.mem_cons, not_or] at h
    have hc : ¬c = '\x00' := fun hc => h.1 hc.symm
    simp [cstr, hc, ih h.2]

theorem cstr_replicate (n : Nat) : cstr (List.replicate n '\x00') = [] := by
  cases n <;> simp [cstr, List.replicate_succ]

theorem cstr_take (l : List Char) : ∀ n, cstr (l.take n) = (cstr l).take n := by
  induction l with
  | nil => intro n; simp [cstr]
  | cons c l ih =>
    intro n
    cases n with
    | zero => simp [cstr]
    | succ m =>
      by_cases h : c = '\x00' <;> simp [cstr, h, List.take_succ_cons, ih]

theorem cstr_mem_ne (l : List Char) (c : Char) : c ∈ cstr l → c ≠ '\x00' := by
  induction l with
  | nil => intro h; simp [cstr] at h
  | cons x l ih =>
    intro h
    by_cases hx : x = '\x00'
    · simp [cstr, hx] at h
    · simp only [cstr, if_neg hx, List.mem_cons] at h
      rcases h with rfl | h
      · exact hx
      · exact ih h

theorem cstr_set_nul (l : List Char) (m : Nat) (h : m < l.length) :
    cstr (l.set m '\x00') = (cstr l).take m := by
  rw [set_shape l m _ h, cstr_append_nul, cstr_take]

/-! ### Decimal-rendering lemmas -/

theorem utoaCore_acc : ∀ (fuel n : Nat) (acc : List Char),
    utoaCore fuel n acc = utoaCore fuel n [] ++ acc := by
  intro fuel
  induction fuel with
  | zero => intro n acc; simp [utoaCore]
  | succ f ih =>
    intro n acc
    by_cases h : n < 10
    · simp [utoaCore, h]
    · simp only [utoaCore, if_neg h]
      rw [ih (n / 10) (digitChar (n % 10) :: acc), ih (n / 10) [digitChar (n % 10)]]
      simp

theorem utoaCore_irrel : ∀ (n f₁ f₂ : Nat), n < f₁ → n < f₂ →
    utoaCore f₁ n [] = utoaCore f₂ n [] := by
  intro n
  induction n using Nat.strong_induction_on with
  | _ n ih =>
    intro f₁ f₂ h₁ h₂
    obtain ⟨g₁, rfl⟩ : ∃ g, f₁ = g + 1 := ⟨f₁ - 1, by omega⟩
    obtain ⟨g₂, rfl⟩ : ∃ g, f₂ = g + 1 := ⟨f₂ - 1, by omega⟩
    by_cases h : n < 10
    · simp [utoaCore, h]
    · simp only [utoaCore, if_neg h]
      have hd : n / 10 < n := Nat.div_lt_self (by omega) (by omega)
      rw [utoaCore_acc g₁, utoaCore_acc g₂, ih (n / 10) hd g₁ g₂ (by omega) (by omega)]

theorem utoa_eq (n : Nat) :
    utoa n = if n < 10 then [digitChar n] else utoa (n / 10) ++ [digitChar (n % 10)] := by
  unfold utoa
  by_cases h : n < 10
  · simp [utoaCore, h]
  · simp only [utoaCore, if_neg h]
    rw [utoaCore_acc n (n / 10)]
    congr 1
    have hd : n / 10 < n := Nat.div_lt_self (by omega) (by omega)
    exact utoaCore_irrel (n / 10) n (n / 10 + 1) hd (by omega)

theorem utoa_ne_nil (n : Nat) : utoa n ≠ [] := by
  rw [utoa_eq]; split_ifs <;> simp

theorem digitChar_toNat (d : Nat) (h : d < 10) : (digitChar d).toNat = 48 + d := by
  interval_cases d <;> decide

theorem utoa_mem : ∀ (n : Nat), ∀ c ∈ utoa n, 48 ≤ c.toNat ∧ c.toNat ≤ 57 := by
  intro n
  induction n using Nat.strong_induction_on with
  | _ n ih =>
    intro c hc
    rw [utoa_eq] at hc
    by_cases h : n < 10
    · rw [if_pos h] at hc
      simp at hc
      subst hc
      rw [digitChar_toNat n h]
      omega
    · rw [if_neg h] at hc
      rw [List.mem_append] at hc
      rcases hc with hc | hc
      · exact ih (n / 10) (Nat.div_lt_self (by omega) (by omega)) c hc
      · simp at hc
        subst hc
        have hm : n % 10 < 10 := Nat.mod_lt n (by omega)
        rw [digitChar_toNat _ hm]
        omega

theorem utoa_head_ne_zero : ∀ (n : Nat), n ≠ 0 → ∀ c, (utoa n).head? = some c → c ≠ '0' := by
  intro n
  induction n using Nat.strong_induction_on with
  | _ n ih =>
    intro hn c hc
    rw [utoa_eq] at hc
    by_cases h : n < 10
    · rw [if_pos h] at hc
      simp at hc
      subst hc
      interval_cases n
      all_goals first
        | exact absurd rfl hn
        | decide
    · rw [if_neg h] at hc
      obtain ⟨x, t, hx⟩ := List.exists_cons_of_ne_nil (utoa_ne_nil (n / 10))
      rw [hx] at hc
      simp at hc
      subst hc
      have hd : n / 10 < n := Nat.div_lt_self (by omega) (by omega)
      refine ih (n / 10) hd (by omega) x ?_
      rw [hx]
      rfl

theorem utoa_length_le : ∀ (k n : Nat), 0 < k → n < 10 ^ k → (utoa n).length ≤ k := by
  intro k
  induction k with
  | zero => intro n h; omega
  | succ k ih =>
    intro n _ hn
    rw [utoa_eq]
    by_cases h : n < 10
    · simp [if_pos h]
    · rw [if_neg h]
      rw [List.length_append]
      have h1 : 0 < k := by
        by_contra hk0
        have hk : k = 0 := by omega
        subst hk
        simp at hn
        omega
      have h2 : n / 10 < 10 ^ k := by
        apply Nat.div_lt_of_lt_mul
        rw [pow_succ] at hn
        omega
      have := ih (n / 10) h1 h2
      simp
      omega

theorem utoa_decode : ∀ (n : Nat),
    List.foldl (fun a c => a * 10 + (c.toNat - 48)) 0 (utoa n) = n := by
  intro n
  induction n using Nat.strong_induction_on with
  | _ n ih =>
    rw [utoa_eq]
    by_cases h : n < 10
    · rw [if_pos h]
      simp [digitChar_toNat n h]
    · rw [if_neg h]
      rw [List.foldl_append]
      have hd : n / 10 < n := Nat.div_lt_self (by omega) (by omega)
      rw [ih (n / 10) hd]
      simp only [List.foldl_cons, List.foldl_nil]
      have hm : n % 10 < 10 := Nat.mod_lt n (by omega)
      rw [digitChar_toNat _ hm]
      omega

/-! ### Dispatcher buffer lemmas -/

theorem cstr_strcpy_zero (N : Nat) (s : List Char) (hlen : s.length < N)
    (hs : '\x00' ∉ s) :
    cstr (strcpy (List.replicate N '\x00') 0 s) = s := by
  unfold strcpy
  have hfits : 0 + (s ++ ['\x00']).length ≤ (List.replicate N '\x00').length := by
    simp
    omega
  rw [writeAt_fits _ _ _ hfits]
  simp only [List.take_zero, List.nil_append, List.drop_replicate]
  rw [List.append_assoc, List.singleton_append, cstr_append_nul]
  exact cstr_of_not_mem s hs

theorem cstr_strncpy_final (out str1 : List Char) (N : Nat)
    (hout : out.length = N) (hstr : str1.length = N) (hN : 0 < N) :
    cstr (strncpy out (str1.set (N - 1) '\x00') N) = (cstr str1).take (N - 1) := by
  have h1 : cstr (str1.set (N - 1) '\x00') = (cstr str1).take (N - 1) :=
    cstr_set_nul str1 (N - 1) (by omega)
  unfold strncpy
  set p := (cstr (str1.set (N - 1) '\x00')).take N with hp
  have hp2 : p = (cstr str1).take (N - 1) := by
    rw [hp, h1, List.take_take]
    congr 1
    omega
  have hpl : p.length ≤ N - 1 := by
    rw [hp2]
    simp [List.length_take]
  have hfits : 0 + (p ++ List.replicate (N - p.length) '\x00').length ≤ out.length := by
    simp [hout]
    omega
  rw [writeAt_fits _ _ _ hfits]
  simp only [List.take_zero, List.nil_append]
  have hk : N - p.length = (N - p.length - 1) + 1 := by omega
  rw [hk, List.replicate_succ, List.append_assoc, List.cons_append, cstr_append_nul]
  have hnul : '\x00' ∉ p := by
    intro hmem
    rw [hp] at hmem
    exact cstr_mem_ne _ _ (List.mem_of_mem_take hmem) rfl
  rw [cstr_of_not_mem p hnul, hp2]

theorem process_cmd_dec_fst (N : Nat) (a buf : List Char) :
    (process_cmd_dec N a buf).1 = 0 := by
  unfold process_cmd_dec
  dsimp only
  split_ifs <;> rfl

theorem process_cmd_dec_snd_length (N : Nat) (a buf : List Char) :
    ((process_cmd_dec N a buf).2).length = buf.length := by
  unfold process_cmd_dec
  dsimp only
  split_ifs <;> simp [strcpy, snprintfWrite, writeAt_length]

theorem dec_response_eq (N : Nat) (a : List Char) (h : 15 ≤ N) :
    dec_response N a = match decCore a with
      | none => "ARGUMENT ERROR".toList
      | some v => (utoa v).take (N - 1) := by
  unfold dec_response process_cmd_dec decCore
  dsimp only
  split_ifs with h1 h2
  · exact cstr_strcpy_zero N _ (by simp; omega) (by decide)
  · exact cstr_strcpy_zero N _ (by simp; omega) (by decide)
  · show cstr (snprintfWrite N (List.replicate N '\x00') _) = _
    unfold snprintfWrite
    apply cstr_strcpy_zero
    · simp [List.length_take]
      omega
    · intro hmem
      have h48 := (utoa_mem _ _ (List.mem_of_mem_take hmem)).1
      simp at h48

/-- Dispatch of a line that tokenizes to the `dec` command: status 0 and the
output buffer receives the handler's text (truncated by the final forced
terminator at `N - 1`). -/
theorem dec_line_spec (N : Nat) (env : Env) (out line arg : List Char)
    (hN : 16 ≤ N) (hout : out.length = N) (hlen : line.length < N)
    (hscan : scanLine line = ("dec".toList, arg)) :
    process_command N env (some line) (some out) =
      (0, some (strncpy out
        (((process_cmd_dec N arg (List.replicate N '\x00')).2).set (N - 1) '\x00') N)) := by
  have hkey : keyOf ['d', 'e', 'c'] = CommandToken.COMMAND_DEC := by decide
  have hp : parse_input N line init_Command =
      (0, ⟨CommandToken.COMMAND_DEC, "dec".toList, arg⟩) := by
    unfold parse_input
    rw [if_neg (show ¬ N ≤ line.length by omega), hscan]
    simp [hkey]
  simp only [process_command, hp]
  simp [process_cmd_dec_fst]

theorem dec_line_resp (N : Nat) (env : Env) (out line arg : List Char)
    (hN : 16 ≤ N) (hout : out.length = N) (hlen : line.length < N)
    (hscan : scanLine line = ("dec".toList, arg)) :
    (process_command N env (some line) (some out)).1 = 0 ∧
    respOf (process_command N env (some line) (some out)) =
      some ((dec_response N arg).take (N - 1)) := by
  rw [dec_line_spec N env out line arg hN hout hlen hscan]
  refine ⟨rfl, ?_⟩
  show some (cstr (strncpy out _ N)) = _
  rw [cstr_strncpy_final out _ N hout
    (by rw [process_cmd_dec_snd_length]; simp) (by omega)]
  rfl

/-! ### Tokenizer lemmas -/

theorem split_char_vals (c : Char) (h : isSplitChar c = true) : c = ' ' ∨ c = '\t' := by
  simp only [isSplitChar, Bool.or_eq_true, decide_eq_true_eq] at h
  exact h

theorem tolower_split_char (c : Char) (h : isSplitChar c = true) : tolower c = c := by
  rcases split_char_vals c h with rfl | rfl <;> decide

theorem notsplit_of_tolower (c d : Char) (hd : isSplitChar d = false) (h : tolower c = d) :
    isSplitChar c = false := by
  by_contra hc
  have hc' : isSplitChar c = true := by simpa using hc
  rw [tolower_split_char c hc'] at h
  subst h
  exact absurd hd (by simp [hc'])

theorem scanLine_append (v : List Char) : ∀ (rest : List Char),
    (∀ c ∈ v, isSplitChar c = false) →
    scanLine (v ++ rest) = (v.map tolower ++ (scanLine rest).1, (scanLine rest).2) := by
  induction v with
  | nil => intro rest _; simp
  | cons c v ih =>
    intro rest h
    have hc : isSplitChar c = false := h c (by simp)
    have hrest := ih rest (fun x hx => h x (by simp [hx]))
    simp [scanLine, hc, hrest]

/-! ### MAC formatter lemmas -/

theorem hexmap_getD_mem : ∀ i, i < 16 → hexmap.getD i ' ' ∈ hexmap := by decide

theorem byteToHexPair_mem (b : Nat) (c : Char) (h : c ∈ byteToHexPair b) : c ∈ hexmap := by
  have h1 : b % 256 / 16 < 16 := Nat.div_lt_of_lt_mul (by omega)
  have h2 : b % 16 < 16 := by omega
  simp only [byteToHexPair, List.mem_cons, List.not_mem_nil, or_false] at h
  rcases h with rfl | rfl
  · exact hexmap_getD_mem _ h1
  · exact hexmap_getD_mem _ h2

theorem byteToHexPair_length (b : Nat) : (byteToHexPair b).length = 2 := rfl

theorem macChars_length (mac : List Nat) : (macChars mac).length = 17 := by
  simp [macChars, byteToHexPair]

theorem macChars_mem (mac : List Nat) (c : Char) (h : c ∈ macChars mac) :
    c = ':' ∨ c ∈ hexmap := by
  simp only [macChars, List.mem_append, List.mem_cons] at h
  rcases h with h | h | h | h | h | h | h | h | h | h | h
  all_goals first
    | exact Or.inl h
    | exact Or.inr (byteToHexPair_mem _ _ h)

theorem macChars_no_nul (mac : List Nat) : '\x00' ∉ macChars mac := by
  intro h
  rcases macChars_mem mac _ h with h1 | h1
  · exact absurd h1 (by decide)
  · exact absurd h1 (by decide)

theorem byteToHexPair_count_colon (b : Nat) : (byteToHexPair b).count ':' = 0 := by
  refine List.count_eq_zero.mpr ?_
  intro h
  exact absurd (byteToHexPair_mem b ':' h) (by decide)

theorem macChars_count_colon (mac : List Nat) : (macChars mac).count ':' = 5 := by
  simp [macChars, List.count_append, List.count_cons, byteToHexPair_count_colon]

theorem getD_replicate_lt (n : Nat) : ∀ (i : Nat) (c d : Char), i < n →
    (List.replicate n c).getD i d = c := by
  induction n with
  | zero => intro i c d h; omega
  | succ n ih =>
    intro i c d h
    cases i with
    | zero => simp [List.replicate_succ]
    | succ j =>
      rw [List.replicate_succ, List.getD_cons_succ]
      exact ih j c d (by omega)

theorem process_cmd_mac_shape (mac : List Nat) (buf : List Char) (h : 21 ≤ buf.length) :
    (process_cmd_mac mac buf).2 = "MAC ".toList ++ macChars mac ++ buf.drop 21 := by
  have hM : "MAC ".toList = ['M', 'A', 'C', ' '] := by decide
  have h1 : strcpy buf 0 ("MAC ".toList) = 'M' :: 'A' :: 'C' :: ' ' :: '\x00' :: buf.drop 5 := by
    unfold strcpy
    rw [hM, writeAt_fits _ _ _ (by simp; omega)]
    simp
  unfold process_cmd_mac mac_to_string
  dsimp only
  rw [h1, writeAt_fits _ _ _ (by simp [macChars_length]; omega), hM]
  simp [macChars_length, List.drop_drop]

/-! ### strtoul lemmas -/

theorem not_space_of_ge48 (c : Char) (h : 48 ≤ c.toNat) : isspaceC c = false := by
  by_contra hc
  have hc' : isspaceC c = true := by simpa using hc
  simp only [isspaceC, Bool.or_eq_true, decide_eq_true_eq] at hc'
  rcases hc' with ((((rfl | rfl) | rfl) | rfl) | rfl) | rfl <;> exact absurd h (by decide)

theorem skipWs_all (ws : List Char) : ∀ (rest : List Char),
    (∀ c ∈ ws, isspaceC c = true) →
    (∀ c, rest.head? = some c → isspaceC c = false) →
    skipWs (ws ++ rest) = (ws.length, rest) := by
  induction ws with
  | nil =>
    intro rest _ hrest
    cases rest with
    | nil => rfl
    | cons c r =>
      have hch := hrest c rfl
      simp [skipWs, hch]
  | cons c ws ih =>
    intro rest h hrest
    have hc : isspaceC c = true := h c (by simp)
    have hih := ih rest (fun x hx => h x (by simp [hx])) hrest
    simp [skipWs, hc, hih]

theorem digitsLoop_digits (ds : List Char) : ∀ (acc : Nat),
    (∀ c ∈ ds, 48 ≤ c.toNat ∧ c.toNat ≤ 57) →
    digitsLoop 10 ds acc =
      (List.foldl (fun a c => a * 10 + (c.toNat - 48)) acc ds, ds.length) := by
  induction ds with
  | nil => intro acc _; rfl
  | cons c ds ih =>
    intro acc h
    have hc := h c (by simp)
    have hv : digitVal c = some (c.toNat - 48) := by
      unfold digitVal
      rw [if_pos ⟨hc.1, hc.2⟩]
    have hlt : c.toNat - 48 < 10 := by omega
    have hih := ih (acc * 10 + (c.toNat - 48)) (fun x hx => h x (by simp [hx]))
    simp [digitsLoop, hv, hlt, hih]

theorem strtoul_base10 (ws sg ds : List Char)
    (hws : ∀ c ∈ ws, isspaceC c = true)
    (hsg : sg = [] ∨ sg = ['+'])
    (hne : ds ≠ [])
    (hds : ∀ c ∈ ds, 48 ≤ c.toNat ∧ c.toNat ≤ 57)
    (hbound : List.foldl (fun a c => a * 10 + (c.toNat - 48)) 0 ds ≤ 65535) :
    strtoul (ws ++ sg ++ ds) 10 =
      (List.foldl (fun a c => a * 10 + (c.toNat - 48)) 0 ds,
       ws.length + sg.length + ds.length) := by
  obtain ⟨d0, ds', rfl⟩ := List.exists_cons_of_ne_nil hne
  have hd0 := hds d0 (by simp)
  have hd0s : isspaceC d0 = false := not_space_of_ge48 d0 hd0.1
  have hd0p : ¬ d0 = '+' := by
    intro hx
    subst hx
    exact absurd hd0.1 (by decide)
  have hd0m : ¬ d0 = '-' := by
    intro hx
    subst hx
    exact absurd hd0.1 (by decide)
  have hdl := digitsLoop_digits (d0 :: ds') 0 hds
  have hnb : ¬ (ULONG_MAX < List.foldl (fun a c => a * 10 + (c.toNat - 48)) 0 (d0 :: ds')) := by
    rw [ULONG_MAX]
    omega
  simp only [List.foldl_cons, Nat.zero_mul, Nat.zero_add] at hnb
  rcases hsg with rfl | rfl
  · rw [List.append_nil]
    have hsk : skipWs (ws ++ d0 :: ds') = (ws.length, d0 :: ds') :=
      skipWs_all ws (d0 :: ds') hws (fun c hc => (Option.some.inj hc) ▸ hd0s)
    unfold strtoul
    rw [hsk]
    simp [hd0p, hd0m, hdl, hnb, List.foldl_cons]
  · have hps : isspaceC '+' = false := by decide
    have hsk : skipWs (ws ++ '+' :: d0 :: ds') = (ws.length, '+' :: d0 :: ds') :=
      skipWs_all ws ('+' :: d0 :: ds') hws (fun c hc => (Option.some.inj hc) ▸ hps)
    unfold strtoul
    rw [show ws ++ ['+'] ++ d0 :: ds' = ws ++ '+' :: d0 :: ds' from by simp]
    rw [hsk]
    simp [hd0p, hd0m, hdl, hnb, List.foldl_cons]

theorem utoa_take_ne_err (N v : Nat) (h : 15 ≤ N) :
    (utoa v).take (N - 1) ≠ "ARGUMENT ERROR".toList := by
  intro he
  obtain ⟨c, t, hct⟩ := List.exists_cons_of_ne_nil (utoa_ne_nil v)
  have hcm : c ∈ utoa v := by rw [hct]; simp
  have h57 := (utoa_mem v c hcm).2
  obtain ⟨m, hm⟩ : ∃ m, N - 1 = m + 1 := ⟨N - 2, by omega⟩
  have hErr : "ARGUMENT ERROR".toList = 'A' :: "RGUMENT ERROR".toList := by decide
  rw [hct, hm, List.take_succ_cons, hErr] at he
  injection he with h1 h2
  subst h1
  exact absurd h57 (by decide)

/-- Full pipeline for a line tokenizing to `dec` whose argument parses to a
value `v ≤ 0xFFFF`: status 0 and the response is the decimal string. -/
theorem dec_example (N : Nat) (env : Env) (out line arg : List Char) (v : Nat)
    (hN : 16 ≤ N) (hout : out.length = N) (hlen : line.length ≤ 15)
    (hscan : scanLine line = ("dec".toList, arg))
    (hv : decCore arg = some v) (hvle : v ≤ 65535) :
    (process_command N env (some line) (some out)).1 = 0 ∧
    respOf (process_command N env (some line) (some out)) = some (utoa v) := by
  obtain ⟨h0, hres⟩ := dec_line_resp N env out line arg hN hout (by omega) hscan
  refine ⟨h0, ?_⟩
  rw [hres, dec_response_eq N arg (by omega), hv]
  have hl : (utoa v).length ≤ 5 := utoa_length_le 5 v (by omega) (by omega)
  dsimp only
  rw [List.take_take]
  rw [show min (N - 1) (N - 1) = N - 1 from by omega]
  rw [List.take_of_length_le (by omega)]

/-- Full pipeline for a line tokenizing to `dec` whose argument fails
validation: status 0 and the literal error response. -/
theorem dec_example_err (N : Nat) (env : Env) (out line arg : List Char)
    (hN : 16 ≤ N) (hout : out.length = N) (hlen : line.length ≤ 15)
    (hscan : scanLine line = ("dec".toList, arg))
    (hv : decCore arg = none) :
    (process_command N env (some line) (some out)).1 = 0 ∧
    respOf (process_command N env (some line) (some out)) =
      some ("ARGUMENT ERROR".toList) := by
  obtain ⟨h0, hres⟩ := dec_line_resp N env out line arg hN hout (by omega) hscan
  refine ⟨h0, ?_⟩
  rw [hres, dec_response_eq N arg (by omega), hv]
  dsimp only
  rw [List.take_of_length_le
    (by rw [show ("ARGUMENT ERROR".toList).length = 14 from by decide]; omega)]

/-! ### Claims -/

/-- C1: the claim says an input line of length `≥ MSG_BUFFER_LENGTH` makes
`process_command` return the tokenizer's overflow status `-2` untouched.
The code computes that `-2` in `parse_input` but `process_command` discards
the return value (commands.c:70), so the zero-initialized command keeps key
`COMMAND_UNKNOWN` and the dispatcher returns `1` instead.  This theorem
evaluates the code on every overlong input: status `1` (not `-2`), output
buffer untouched. -/
theorem C1_overlong_status (N : Nat) (env : Env) (line out : List Char)
    (h : N ≤ line.length) :
    process_command N env (some line) (some out) = (1, some out) := by
  have hp : parse_input N line init_Command = (-2, init_Command) := by
    unfold parse_input
    rw [if_pos h]
  simp only [process_command, hp]
  simp [init_Command]

theorem C1_overlong_status_witness :
    process_command 8 ⟨[1, 2, 171, 205, 239, 0], 0, 2, 1000⟩
      (some ("01234567".toList)) (some (List.replicate 8 'A')) =
      (1, some (List.replicate 8 'A')) :=
  C1_overlong_status 8 ⟨[1, 2, 171, 205, 239, 0], 0, 2, 1000⟩
    ("01234567".toList) (List.replicate 8 'A') (by decide)

/-- C2 counterexample: for the argument `"0x"` the remaining substring
after the detected base-16 prefix is empty, yet the response is `"0"`, not
`"ARGUMENT ERROR"`: once characters were skipped for the prefix, `end`
can never equal `num`, and `strtoul` on the empty remainder leaves `*end`
at the terminator with value 0. -/
theorem C2_counterexample :
    ("0x".toList).drop (decSkip (detectBase "0x".toList)) = [] ∧
    dec_response 16 ("0x".toList) = "0".toList ∧
    dec_response 16 ("0x".toList) ≠ "ARGUMENT ERROR".toList :=
  ⟨by decide, by decide, by decide⟩

/-- C2 (amended): the handler responds `"ARGUMENT ERROR"` exactly when the
base-10 path consumed nothing (this covers the empty argument), or a
character is left unconsumed after parsing, or the parsed value exceeds
`0xFFFF`; an empty remainder after a `0x`/`0b` prefix is *not* an error
(the value parses as 0).  In every other case the response is the decimal
representation of the parsed value: in range, no leading zero, and its
digits decode back to the value. -/
theorem C2_dec_error_iff (N : Nat) (arg : List Char) (hN : 15 ≤ N) :
    (dec_response N arg = "ARGUMENT ERROR".toList ↔
      (decSkip (detectBase arg) = 0 ∧
        (strtoul (arg.drop (decSkip (detectBase arg))) (detectBase arg)).2 = 0) ∨
      (strtoul (arg.drop (decSkip (detectBase arg))) (detectBase arg)).2 <
        (arg.drop (decSkip (detectBase arg))).length ∨
      65535 < (strtoul (arg.drop (decSkip (detectBase arg))) (detectBase arg)).1) ∧
    (∀ v, decCore arg = some v →
      dec_response N arg = utoa v ∧ v ≤ 65535 ∧
      (∀ c, (utoa v).head? = some c → v ≠ 0 → c ≠ '0') ∧
      List.foldl (fun a c => a * 10 + (c.toNat - 48)) 0 (utoa v) = v) := by
  constructor
  · rw [dec_response_eq N arg hN]
    unfold decCore
    dsimp only
    split_ifs with h1 h2
    · constructor
      · intro _
        rcases h1 with h1 | h1
        · exact Or.inl ⟨by omega, by omega⟩
        · exact Or.inr (Or.inl h1)
      · intro _
        rfl
    · constructor
      · intro _
        exact Or.inr (Or.inr h2)
      · intro _
        rfl
    · apply iff_of_false (utoa_take_ne_err N _ hN)
      push_neg at h1 ⊢
      refine ⟨fun hsk0 => ?_, h1.2, by omega⟩
      intro h2'
      omega
  · intro v hv
    have hvle : v ≤ 65535 := by
      unfold decCore at hv
      dsimp only at hv
      split_ifs at hv with h1 h2
      have := Option.some.inj hv
      omega
    have hlen5 : (utoa v).length ≤ 5 := utoa_length_le 5 v (by omega) (by omega)
    rw [dec_response_eq N arg hN, hv]
    dsimp only
    refine ⟨List.take_of_length_le (by omega), hvle, ?_, utoa_decode v⟩
    intro c hc h0
    exact utoa_head_ne_zero v h0 c hc

theorem C2_dec_error_iff_witness :
    dec_response 15 ("42".toList) = utoa 42 ∧ (42 : Nat) ≤ 65535 :=
  ⟨((C2_dec_error_iff 15 ("42".toList) (by decide)).2 42 (by decide)).1,
   ((C2_dec_error_iff 15 ("42".toList) (by decide)).2 42 (by decide)).2.1⟩

/-- C3: the seven documented examples of the `dec` command, each processed
end to end with status 0: `dec 0x10` → `16`, `dec 0b101` → `5`,
`dec 010` → `8`, `dec 65535` → `65535`, `dec 65536` → `ARGUMENT ERROR`,
`dec abc` → `ARGUMENT ERROR`, `dec` → `ARGUMENT ERROR`. -/
theorem C3_dec_examples (N : Nat) (env : Env) (out : List Char)
    (hN : 16 ≤ N) (hout : out.length = N) :
    ((process_command N env (some ("dec 0x10".toList)) (some out)).1 = 0 ∧
      respOf (process_command N env (some ("dec 0x10".toList)) (some out)) =
        some ("16".toList)) ∧
    ((process_command N env (some ("dec 0b101".toList)) (some out)).1 = 0 ∧
      respOf (process_command N env (some ("dec 0b101".toList)) (some out)) =
        some ("5".toList)) ∧
    ((process_command N env (some ("dec 010".toList)) (some out)).1 = 0 ∧
      respOf (process_command N env (some ("dec 010".toList)) (some out)) =
        some ("8".toList)) ∧
    ((process_command N env (some ("dec 65535".toList)) (some out)).1 = 0 ∧
      respOf (process_command N env (some ("dec 65535".toList)) (some out)) =
        some ("65535".toList)) ∧
    ((process_command N env (some ("dec 65536".toList)) (some out)).1 = 0 ∧
      respOf (process_command N env (some ("dec 65536".toList)) (some out)) =
        some ("ARGUMENT ERROR".toList)) ∧
    ((process_command N env (some ("dec abc".toList)) (some out)).1 = 0 ∧
      respOf (process_command N env (some ("dec abc".toList)) (some out)) =
        some ("ARGUMENT ERROR".toList)) ∧
    ((process_command N env (some ("dec".toList)) (some out)).1 = 0 ∧
      respOf (process_command N env (some ("dec".toList)) (some out)) =
        some ("ARGUMENT ERROR".toList)) := by
  refine ⟨?_, ?_, ?_, ?_, ?_, ?_, ?_⟩
  · have h := dec_example N env out ("dec 0x10".toList) ("0x10".toList) 16
      hN hout (by decide) (by decide) (by decide) (by decide)
    rwa [show utoa 16 = "16".toList from by decide] at h
  · have h := dec_example N env out ("dec 0b101".toList) ("0b101".toList) 5
      hN hout (by decide) (by decide) (by decide) (by decide)
    rwa [show utoa 5 = "5".toList from by decide] at h
  · have h := dec_example N env out ("dec 010".toList) ("010".toList) 8
      hN hout (by decide) (by decide) (by decide) (by decide)
    rwa [show utoa 8 = "8".toList from by decide] at h
  · have h := dec_example N env out ("dec 65535".toList) ("65535".toList) 65535
      hN hout (by decide) (by decide) (by decide) (by decide)
    rwa [show utoa 65535 = "65535".toList from by decide] at h
  · exact dec_example_err N env out ("dec 65536".toList) ("65536".toList)
      hN hout (by decide) (by decide) (by decide)
  · exact dec_example_err N env out ("dec abc".toList) ("abc".toList)
      hN hout (by decide) (by decide) (by decide)
  · exact dec_example_err N env out ("dec".toList) []
      hN hout (by decide) (by decide) (by decide)

theorem C3_dec_examples_witness :
    (process_command 16 ⟨[0, 0, 0, 0, 0, 0], 0, 1, 0⟩
      (some ("dec 0x10".toList)) (some (List.replicate 16 'Z'))).1 = 0 ∧
    respOf (process_command 16 ⟨[0, 0, 0, 0, 0, 0], 0, 1, 0⟩
      (some ("dec 0x10".toList)) (some (List.replicate 16 'Z'))) =
      some ("16".toList) :=
  (C3_dec_examples 16 ⟨[0, 0, 0, 0, 0, 0], 0, 1, 0⟩ (List.replicate 16 'Z')
    (by decide) (by decide)).1

/-- C4: for every 6-byte input the MAC formatter emits exactly 17
characters, five `':'` separators, at offset `3*i` the two uppercase hex
digits of byte `i` (high nibble first), every character a colon or an
uppercase hex digit; writing into an exactly-17-byte buffer yields exactly
those characters; and the documented example holds.  The formatter is a
total function, so it is deterministic and has no failure mode. -/
theorem C4_mac_format (mac : List Nat) (h6 : mac.length = 6) :
    (macChars mac).length = 17 ∧
    (macChars mac).count ':' = 5 ∧
    (∀ c ∈ macChars mac, c = ':' ∨ c ∈ hexmap) ∧
    (∀ i, i < 6 → ((macChars mac).drop (3 * i)).take 2 = byteToHexPair (mac.getD i 0)) ∧
    (∀ buf : List Char, buf.length = 17 → mac_to_string mac buf 0 = macChars mac) ∧
    macChars [1, 2, 171, 205, 239, 0] = "01:02:AB:CD:EF:00".toList := by
  refine ⟨macChars_length mac, macChars_count_colon mac, macChars_mem mac, ?_, ?_, by decide⟩
  · intro i hi
    interval_cases i <;> rfl
  · intro buf hbuf
    unfold mac_to_string
    rw [writeAt_fits _ _ _ (by rw [macChars_length]; omega)]
    rw [List.drop_eq_nil_of_le (by simp [macChars_length, hbuf])]
    simp

theorem C4_mac_format_witness :
    macChars [1, 2, 171, 205, 239, 0] = "01:02:AB:CD:EF:00".toList :=
  (C4_mac_format [1, 2, 171, 205, 239, 0] (by decide)).2.2.2.2.2

/-- C5: every ASCII-letter-case variation `v` of a known command word `w`
(`v.map tolower = w`) tokenizes to the very same `Command` for any rest of
the line, hence `process_command` behaves identically -- same handler, same
response. -/
theorem C5_case_insensitive (N : Nat) (env : Env) (o : Option (List Char))
    (v rest w : List Char)
    (hw : w = "mac".toList ∨ w = "id".toList ∨ w = "status".toList ∨ w = "dec".toList)
    (hv : v.map tolower = w) :
    parse_input N (v ++ rest) init_Command = parse_input N (w ++ rest) init_Command ∧
    process_command N env (some (v ++ rest)) o = process_command N env (some (w ++ rest)) o := by
  have hwns : ∀ d ∈ w, isSplitChar d = false := by
    rcases hw with rfl | rfl | rfl | rfl <;> decide
  have hwl : w.map tolower = w := by
    rcases hw with rfl | rfl | rfl | rfl <;> decide
  have hvns : ∀ c ∈ v, isSplitChar c = false := by
    intro c hc
    have hmem : tolower c ∈ w := by
      rw [← hv]
      exact List.mem_map_of_mem tolower hc
    exact notsplit_of_tolower c (tolower c) (hwns _ hmem) rfl
  have hsc : scanLine (v ++ rest) = scanLine (w ++ rest) := by
    rw [scanLine_append v rest hvns, scanLine_append w rest hwns, hv, hwl]
  have hlen : (v ++ rest).length = (w ++ rest).length := by
    have : v.length = w.length := by rw [← hv, List.length_map]
    simp [List.length_append, this]
  have hpi : parse_input N (v ++ rest) init_Command = parse_input N (w ++ rest) init_Command := by
    unfold parse_input
    rw [hsc, hlen]
  refine ⟨hpi, ?_⟩
  cases o with
  | none => rfl
  | some out => simp only [process_command, hpi]

theorem C5_case_insensitive_witness :
    parse_input 16 ("MaC".toList ++ " x".toList) init_Command =
      parse_input 16 ("mac".toList ++ " x".toList) init_Command ∧
    process_command 16 ⟨[0, 0, 0, 0, 0, 0], 0, 1, 0⟩
      (some ("MaC".toList ++ " x".toList)) (some (List.replicate 16 'Z')) =
    process_command 16 ⟨[0, 0, 0, 0, 0, 0], 0, 1, 0⟩
      (some ("mac".toList ++ " x".toList)) (some (List.replicate 16 'Z')) :=
  C5_case_insensitive 16 ⟨[0, 0, 0, 0, 0, 0], 0, 1, 0⟩
    (some (List.replicate 16 'Z')) ("MaC".toList) (" x".toList) ("mac".toList)
    (Or.inl rfl) (by decide)

/-- C6: only the single whitespace character that triggers the
command/argument split is elided; everything after it -- whitespace
included, with case and position preserved -- is copied verbatim into the
argument field. -/
theorem C6_arg_whitespace (N : Nat) (pre post : List Char) (c : Char)
    (hpre : ∀ x ∈ pre, isSplitChar x = false) (hc : isSplitChar c = true)
    (hlen : (pre ++ c :: post).length < N) :
    (parse_input N (pre ++ c :: post) init_Command).2.argument = post ∧
    (parse_input N (pre ++ c :: post) init_Command).2.command = pre.map tolower := by
  have hsc : scanLine (pre ++ c :: post) = (pre.map tolower, post) := by
    rw [scanLine_append pre (c :: post) hpre]
    simp [scanLine, hc]
  unfold parse_input
  rw [if_neg (by omega), hsc]
  exact ⟨rfl, rfl⟩

theorem C6_arg_whitespace_witness :
    (parse_input 16 ("dec".toList ++ ' ' :: (" a\tb".toList)) init_Command).2.argument =
      " a\tb".toList ∧
    (parse_input 16 ("dec".toList ++ ' ' :: (" a\tb".toList)) init_Command).2.command =
      ("dec".toList).map tolower :=
  C6_arg_whitespace 16 ("dec".toList) (" a\tb".toList) ' '
    (by decide) (by decide) (by decide)

/-- C7: whenever `process_command` returns a non-zero status, the caller's
output buffer is returned unchanged; the buffer is written only on the
status-0 path. -/
theorem C7_no_output_on_error (N : Nat) (env : Env) (i o : Option (List Char))
    (s : Int) (o' : Option (List Char))
    (h : process_command N env i o = (s, o')) (hs : s ≠ 0) : o' = o := by
  cases i with
  | none =>
    rw [show process_command N env none o = (-1, o) from rfl] at h
    injection h with h1 h2
    exact h2.symm
  | some line =>
    cases o with
    | none =>
      rw [show process_command N env (some line) none = (-1, none) from rfl] at h
      injection h with h1 h2
      exact h2.symm
    | some out =>
      unfold process_command at h
      dsimp only at h
      split at h
      · injection h with h1 h2
        exact h2.symm
      · injection h with h1 h2
        exact absurd h1.symm hs

theorem C7_no_output_on_error_witness :
    (process_command 16 ⟨[0, 0, 0, 0, 0, 0], 0, 1, 0⟩ (some ("foobar".toList))
      (some (List.replicate 16 'A'))).2 = some (List.replicate 16 'A') :=
  C7_no_output_on_error 16 ⟨[0, 0, 0, 0, 0, 0], 0, 1, 0⟩ (some ("foobar".toList))
    (some (List.replicate 16 'A'))
    ((process_command 16 ⟨[0, 0, 0, 0, 0, 0], 0, 1, 0⟩ (some ("foobar".toList))
      (some (List.replicate 16 'A'))).1)
    ((process_command 16 ⟨[0, 0, 0, 0, 0, 0], 0, 1, 0⟩ (some ("foobar".toList))
      (some (List.replicate 16 'A'))).2)
    Prod.mk.eta.symm (by decide)

/-- C8: a NULL input or output buffer makes `process_command` return `-1`
immediately, never touching either buffer (the check precedes every use). -/
theorem C8_null_returns (N : Nat) (env : Env) (i o : Option (List Char))
    (h : i = none ∨ o = none) :
    process_command N env i o = (-1, o) := by
  rcases h with rfl | rfl
  · cases o <;> rfl
  · cases i <;> rfl

theorem C8_null_returns_witness :
    process_command 8 ⟨[0, 0, 0, 0, 0, 0], 0, 1, 0⟩ none
      (some (List.replicate 8 'A')) = (-1, some (List.replicate 8 'A')) :=
  C8_null_returns 8 ⟨[0, 0, 0, 0, 0, 0], 0, 1, 0⟩ none
    (some (List.replicate 8 'A')) (Or.inl rfl)

/-- C9: `mac_to_string` writes exactly the 17 bytes at offsets 0..16 of its
output buffer (every byte at offset ≥ 17 is unchanged, for any buffer),
appends no NUL terminator (none of the written characters is NUL and offset
17 is untouched), and `process_cmd_mac`'s "MAC ..." response is a
terminated string only because the dispatcher's buffer was zero-filled:
the handler leaves byte 21 of any buffer unchanged, and on the zero-filled
dispatch buffer that byte is NUL so the string content is exactly
`"MAC "` + the 17 MAC characters. -/
theorem C9_mac_writes (mac : List Nat) (out : List Char) (d : Char) (h6 : mac.length = 6) :
    (mac_to_string mac out 0).length = out.length ∧
    (∀ i, 17 ≤ i → (mac_to_string mac out 0).getD i d = out.getD i d) ∧
    (17 ≤ out.length → (mac_to_string mac out 0).take 17 = macChars mac) ∧
    '\x00' ∉ macChars mac ∧
    (∀ buf : List Char, ((process_cmd_mac mac buf).2).getD 21 d = buf.getD 21 d) ∧
    (∀ N, 22 ≤ N →
      ((process_cmd_mac mac (List.replicate N '\x00')).2).getD 21 d = '\x00' ∧
      cstr ((process_cmd_mac mac (List.replicate N '\x00')).2) =
        "MAC ".toList ++ macChars mac) := by
  have hframe : ∀ buf : List Char, ((process_cmd_mac mac buf).2).getD 21 d = buf.getD 21 d := by
    intro buf
    unfold process_cmd_mac mac_to_string strcpy
    dsimp only
    rw [writeAt_getD_of_ge _ _ _ _ _ (by simp [macChars_length])]
    exact writeAt_getD_of_ge _ _ _ _ _ (by decide)
  refine ⟨writeAt_length _ _ _, ?_, ?_, macChars_no_nul mac, hframe, ?_⟩
  · intro i hi
    exact writeAt_getD_of_ge _ _ _ _ _ (by simp [macChars_length]; omega)
  · intro hlen
    unfold mac_to_string
    rw [writeAt_fits _ _ _ (by simp [macChars_length]; omega)]
    simp only [List.take_zero, List.nil_append]
    rw [← macChars_length mac, List.take_left]
  · intro N hN
    refine ⟨?_, ?_⟩
    · rw [hframe]
      exact getD_replicate_lt N 21 '\x00' d (by omega)
    · rw [process_cmd_mac_shape mac _ (by simp; omega)]
      rw [List.drop_replicate, show N - 21 = (N - 22) + 1 from by omega, List.replicate_succ]
      rw [cstr_append_nul]
      apply cstr_of_not_mem
      intro hmem
      rcases List.mem_append.mp hmem with hm | hm
      · exact absurd hm (by decide)
      · exact macChars_no_nul mac hm

theorem C9_mac_writes_witness :
    (mac_to_string [1, 2, 171, 205, 239, 0] (List.replicate 20 'B') 0).take 17 =
      macChars [1, 2, 171, 205, 239, 0] :=
  (C9_mac_writes [1, 2, 171, 205, 239, 0] (List.replicate 20 'B') 'B'
    (by decide)).2.2.1 (by decide)

/-- C10: on the base-10 path the dec handler inherits `strtoul`'s lenient
handling of the leading part: any argument made of leading spaces/tabs
and/or a single `'+'` followed by decimal digits whose value is at most
0xFFFF yields the decimal value, not `"ARGUMENT ERROR"`; in particular the
line `"dec  42"` (two spaces, the second preserved verbatim by the
tokenizer) answers `"42"`. -/
theorem C10_strtoul_leniency (N : Nat) (env : Env) (out ws sg ds : List Char)
    (hN : 16 ≤ N) (hout : out.length = N)
    (hws : ∀ c ∈ ws, c = ' ' ∨ c = '\t')
    (hsg : sg = [] ∨ sg = ['+'])
    (hne : ds ≠ [])
    (hds : ∀ c ∈ ds, 48 ≤ c.toNat ∧ c.toNat ≤ 57)
    (hb10 : detectBase (ws ++ sg ++ ds) = 10)
    (hval : List.foldl (fun a c => a * 10 + (c.toNat - 48)) 0 ds ≤ 65535) :
    dec_response N (ws ++ sg ++ ds) =
      utoa (List.foldl (fun a c => a * 10 + (c.toNat - 48)) 0 ds) ∧
    ((process_command N env (some ("dec  42".toList)) (some out)).1 = 0 ∧
      respOf (process_command N env (some ("dec  42".toList)) (some out)) =
        some ("42".toList)) := by
  constructor
  · have hws' : ∀ c ∈ ws, isspaceC c = true := by
      intro c hc
      rcases hws c hc with rfl | rfl <;> decide
    have hst := strtoul_base10 ws sg ds hws' hsg hne hds hval
    have hlpos : 1 ≤ ds.length := by
      cases ds with
      | nil => exact absurd rfl hne
      | cons a b => simp
    have hcc : decCore (ws ++ sg ++ ds) =
        some (List.foldl (fun a c => a * 10 + (c.toNat - 48)) 0 ds) := by
      unfold decCore
      rw [hb10]
      dsimp only
      rw [show decSkip 10 = 0 from rfl, List.drop_zero, hst]
      dsimp only
      rw [if_neg (by
        simp only [List.length_append]
        omega)]
      rw [if_neg (by omega)]
    rw [dec_response_eq N _ (by omega), hcc]
    dsimp only
    have hlen5 : (utoa (List.foldl (fun a c => a * 10 + (c.toNat - 48)) 0 ds)).length ≤ 5 :=
      utoa_length_le 5 _ (by omega) (by omega)
    exact List.take_of_length_le (by omega)
  · obtain ⟨h1, h2⟩ := dec_example N env out ("dec  42".toList) (" 42".toList) 42
      hN hout (by decide) (by decide) (by decide) (by decide)
    rw [show utoa 42 = "42".toList from by decide] at h2
    exact ⟨h1, h2⟩

theorem C10_strtoul_leniency_witness :
    dec_response 16 ([' '] ++ [] ++ ['4', '2']) =
      utoa (List.foldl (fun a c => a * 10 + (c.toNat - 48)) 0 ['4', '2']) :=
  (C10_strtoul_leniency 16 ⟨[0, 0, 0, 0, 0, 0], 0, 1, 0⟩ (List.replicate 16 'Q')
    [' '] [] ['4', '2'] (by decide) (by decide) (by decide) (Or.inl rfl)
    (by decide) (by decide) (by decide) (by decide)).1

end ESPP1
